import Mathlib

/-!
Verification of the buffalo hyperparameter-optimization and ALS training
drivers against their specification.

The development shallowly embeds two modules:

* `buffalo/algo/optimize.py` (`Optimizable.optimize`, `Optimizable._get_space`):
  the trial ledger and best-trial tracking, the deployment policy, the
  trial-budget loop, and the shifted-integer (`randint`) search-space entry.
* `buffalo/algo/als.py` (`ALS.train`, `ALS._optimize`): the alternating
  rowwise/colwise training loop with its loss, validation carry-forward and
  early stopping, and the hyperparameter-application guard.

Python floats are modelled as rationals (`ℚ`); the float operation `x ** 0.5`
is modelled by an abstract square-root function `sqrtFn` carried in the
training environment (it is exact on perfect squares, as float sqrt is, and
`ratSqrt` below is one concrete such instance).  External collaborators
(solver kernel, batch feeder, validation, hyperopt's suggestion mechanism)
are modelled as opaque parameters: one loop iteration of `fmin` with
`max_evals = len(trials) + 1` evaluates exactly one new suggested point, so
the suggestions are modelled as a stream of resulting trials.
-/

namespace Buffalo

/-! ## Optimization loop (`buffalo/algo/optimize.py`) -/

/-- One completed trial: an identifying tag (chronological index / parameter
vector id) and the realized loss (`self._optimize_loss`). -/
structure Trial where
  tag : ℕ
  loss : ℚ
  deriving DecidableEq, Repr

/-- `self._optimization_info`: the ledger of completed trials (hyperopt's
`Trials`, insertion order chronological) and the best record (`{}` ↦ `none`). -/
structure OptInfo where
  trials : List Trial
  best : Option Trial
  deriving DecidableEq, Repr

/-- `self._optimization_info.get('best', {}).get('loss', 987654321)`:
the loss of the current best, with the sentinel default for an empty best. -/
def bestLossOf : Option Trial → ℚ
  | none => 987654321
  | some t => t.loss

/-- Ledger/best update for one completed trial (optimize.py lines 52-61):
`fmin` appends the evaluated trial to the ledger; the best is replaced
exactly when the new loss is strictly below the current best loss
(sentinel `987654321` when no best exists). -/
def optStepInfo (info : OptInfo) (t : Trial) : OptInfo :=
  ⟨info.trials ++ [t], if t.loss < bestLossOf info.best then some t else info.best⟩

/-- Folding a whole sequence of completed trials into the ledger. -/
def runInfo (info : OptInfo) (ts : List Trial) : OptInfo :=
  ts.foldl optStepInfo info

/-- The `opt.optimize` configuration surface used by the loop:
`deployment`, `min_trials` (0 models the falsy "no gate" case) and the
model path (`none` models a falsy/unset `self.opt.model_path`). -/
structure OptConfig where
  deployment : Bool
  min_trials : ℕ
  model_path : Option String
  deriving DecidableEq, Repr

/-- Deployment gate (optimize.py line 62):
`opt.deployment and (is_first_time or not opt.min_trials or opt.min_trials >= iters)`. -/
def deployAllowed (cfg : OptConfig) (isFirst : Bool) (iters : ℕ) : Bool :=
  cfg.deployment && (isFirst || cfg.min_trials == 0 || decide (iters ≤ cfg.min_trials))

/-- State of the `optimize()` main loop: ledger/best, `iters` counter and the
remaining `max_trials` budget (an integer: `-1` means unbounded). -/
structure OptState where
  info : OptInfo
  iters : ℕ
  budget : ℤ
  deriving DecidableEq, Repr

/-- One iteration of the `while(max_trials)` body (optimize.py lines 47-70)
after `fmin` evaluated the single new trial `t`: increment `iters`,
decrement the budget, update ledger/best, and on improvement apply the
deployment policy — raising `RuntimeError` when deployment is due but no
model path is configured.  Returns the new state and whether the model was
persisted (`self.dump`) on this trial. -/
def optimizeStep (cfg : OptConfig) (st : OptState) (t : Trial) :
    Except String (OptState × Bool) :=
  let st2 : OptState := ⟨optStepInfo st.info t, st.iters + 1, st.budget - 1⟩
  if t.loss < bestLossOf st.info.best then
    if deployAllowed cfg st.info.best.isNone (st.iters + 1) then
      if cfg.model_path.isNone then
        Except.error "Failed to dump model: model path is not defined"
      else
        Except.ok (st2, true)
    else
      Except.ok (st2, false)
  else
    Except.ok (st2, false)

/-- The `while(max_trials)` loop (optimize.py lines 47-70), driven by the
stream of trials the sequential ask-then-run `fmin` calls produce (the
`iters`-th loop iteration evaluates `stream iters`).  `fuel` bounds the
number of modelled steps; the loop guard stops as soon as the budget
counter reaches zero. -/
def runOpt (cfg : OptConfig) (stream : ℕ → Trial) : ℕ → OptState → Except String OptState
  | 0, st => Except.ok st
  | Nat.succ k, st =>
    if st.budget = 0 then Except.ok st
    else
      match optimizeStep cfg st (stream st.iters) with
      | Except.error e => Except.error e
      | Except.ok r => runOpt cfg stream k r.1

/-- Variant of the loop that feeds an explicit list of evaluated trials and
records, per executed trial, whether the model was deployed on it. -/
def runOptFlags (cfg : OptConfig) : OptState → List Trial → Except String (OptState × List Bool)
  | st, [] => Except.ok (st, [])
  | st, t :: ts =>
    if st.budget = 0 then Except.ok (st, [])
    else
      match optimizeStep cfg st t with
      | Except.error e => Except.error e
      | Except.ok r =>
        match runOptFlags cfg r.1 ts with
        | Except.error e => Except.error e
        | Except.ok q => Except.ok (q.1, r.2 :: q.2)

/-! ### Ledger/best lemmas -/

lemma optStepInfo_trials (info : OptInfo) (t : Trial) :
    (optStepInfo info t).trials = info.trials ++ [t] := rfl

lemma optStepInfo_best_of_lt (info : OptInfo) (t : Trial)
    (h : t.loss < bestLossOf info.best) : (optStepInfo info t).best = some t := by
  simp [optStepInfo, h]

lemma optStepInfo_best_of_not_lt (info : OptInfo) (t : Trial)
    (h : ¬ t.loss < bestLossOf info.best) : (optStepInfo info t).best = info.best := by
  simp [optStepInfo, h]

lemma bestLossOf_optStepInfo (info : OptInfo) (t : Trial) :
    bestLossOf (optStepInfo info t).best = min (bestLossOf info.best) t.loss := by
  by_cases h : t.loss < bestLossOf info.best
  · rw [optStepInfo_best_of_lt info t h, min_eq_right h.le]
    rfl
  · rw [optStepInfo_best_of_not_lt info t h, min_eq_left (le_of_not_lt h)]

/-- Invariant of the ledger fold: after consuming `consumed`, the ledger holds
exactly `consumed`, and either no best exists and every consumed loss is at
least the sentinel, or the best is the earliest minimum-loss trial: all
strictly earlier trials have strictly greater loss and all later ones have
greater-or-equal loss. -/
def LedgerInv (consumed : List Trial) (info : OptInfo) : Prop :=
  info.trials = consumed ∧
  ((info.best = none ∧ ∀ u ∈ consumed, (987654321 : ℚ) ≤ u.loss) ∨
   (∃ b pre post, info.best = some b ∧ consumed = pre ++ b :: post ∧
     (∀ u ∈ pre, b.loss < u.loss) ∧ (∀ u ∈ post, b.loss ≤ u.loss) ∧
     b.loss < 987654321))

lemma ledgerInv_step (consumed : List Trial) (info : OptInfo) (t : Trial)
    (h : LedgerInv consumed info) : LedgerInv (consumed ++ [t]) (optStepInfo info t) := by
  obtain ⟨htr, hb⟩ := h
  by_cases hlt : t.loss < bestLossOf info.best
  · refine ⟨by simp [optStepInfo, htr], Or.inr ?_⟩
    rcases hb with ⟨hnone, hall⟩ | ⟨b, pre, post, hbest, hsplit, hpre, hpost, hsent⟩
    · have hs : t.loss < (987654321 : ℚ) := by
        simpa [bestLossOf, hnone] using hlt
      refine ⟨t, consumed, [], optStepInfo_best_of_lt _ _ hlt, by simp, ?_, by simp, hs⟩
      intro u hu
      exact lt_of_lt_of_le hs (hall u hu)
    · have htb : t.loss < b.loss := by simpa [bestLossOf, hbest] using hlt
      refine ⟨t, consumed, [], optStepInfo_best_of_lt _ _ hlt, by simp, ?_, by simp,
        lt_trans htb hsent⟩
      intro u hu
      rw [hsplit] at hu
      rcases List.mem_append.mp hu with hu | hu
      · exact lt_trans htb (hpre u hu)
      · rcases List.mem_cons.mp hu with rfl | hu
        · exact htb
        · exact lt_of_lt_of_le htb (hpost u hu)
  · refine ⟨by simp [optStepInfo, htr], ?_⟩
    rcases hb with ⟨hnone, hall⟩ | ⟨b, pre, post, hbest, hsplit, hpre, hpost, hsent⟩
    · refine Or.inl ⟨by rw [optStepInfo_best_of_not_lt _ _ hlt, hnone], ?_⟩
      intro u hu
      rcases List.mem_append.mp hu with hu | hu
      · exact hall u hu
      · have hu := List.mem_singleton.mp hu
        subst hu
        simpa [bestLossOf, hnone] using le_of_not_lt hlt
    · refine Or.inr ⟨b, pre, post ++ [t],
        by rw [optStepInfo_best_of_not_lt _ _ hlt, hbest], by simp [hsplit], hpre, ?_, hsent⟩
      intro u hu
      rcases List.mem_append.mp hu with hu | hu
      · exact hpost u hu
      · have hu := List.mem_singleton.mp hu
        subst hu
        simpa [bestLossOf, hbest] using le_of_not_lt hlt

lemma ledgerInv_run (ts : List Trial) :
    ∀ consumed info, LedgerInv consumed info →
      LedgerInv (consumed ++ ts) (runInfo info ts) := by
  induction ts with
  | nil => intro consumed info h; simpa [runInfo] using h
  | cons t ts ih =>
    intro consumed info h
    have h3 := ih (consumed ++ [t]) (optStepInfo info t) (ledgerInv_step consumed info t h)
    simpa [runInfo, List.append_assoc] using h3

lemma ledgerInv_empty : LedgerInv [] ⟨[], none⟩ :=
  ⟨rfl, Or.inl ⟨rfl, by simp⟩⟩

lemma ledgerInv_of_run (ts : List Trial) : LedgerInv ts (runInfo ⟨[], none⟩ ts) := by
  simpa using ledgerInv_run ts [] ⟨[], none⟩ ledgerInv_empty

/-- C1 counterexample: with an empty best (no best exists yet) a first trial
of loss `987654321` is appended to the ledger but is NOT marked as the best
(the improvement check compares against the sentinel default `987654321`,
not against "no best exists"), so after this trial there is no best at all
and `best.loss` is not the minimum loss over the recorded trials —
contradicting the claim that a new trial is marked as best whenever no best
exists yet. -/
theorem C1_counterexample :
    (optStepInfo ⟨[], none⟩ ⟨0, 987654321⟩).trials = [⟨0, 987654321⟩] ∧
    (optStepInfo ⟨[], none⟩ ⟨0, 987654321⟩).best = none := by
  refine ⟨rfl, ?_⟩
  norm_num [optStepInfo, bestLossOf]

/-- C1 (amended): each completed trial is appended to the ledger, and a new
trial is marked as best exactly when its loss is strictly below the current
best loss, where an empty best counts as the sentinel loss `987654321`
(so a first trial becomes best only if its loss is below the sentinel).
Consequently the best loss evolves as the running minimum (hence is
monotonically non-increasing), starting from an empty ledger the best — when
it exists — is the earliest trial of minimum loss (strictly earlier trials
have strictly greater loss, later ones greater-or-equal), the best can be
missing only when every recorded loss reached the sentinel, and the loss
sequence `[0.5, 0.4, 0.6, 0.3]` yields best losses `[0.5, 0.4, 0.4, 0.3]`. -/
theorem C1_best_tracking :
    (∀ info t, (optStepInfo info t).trials = info.trials ++ [t]) ∧
    (∀ info t, t.loss < bestLossOf info.best → (optStepInfo info t).best = some t) ∧
    (∀ info t, ¬ t.loss < bestLossOf info.best → (optStepInfo info t).best = info.best) ∧
    (∀ info t, bestLossOf (optStepInfo info t).best = min (bestLossOf info.best) t.loss) ∧
    (∀ info t, bestLossOf (optStepInfo info t).best ≤ bestLossOf info.best) ∧
    (∀ ts b, (runInfo ⟨[], none⟩ ts).best = some b →
      ∃ pre post, ts = pre ++ b :: post ∧ (∀ u ∈ pre, b.loss < u.loss) ∧
        (∀ u ∈ post, b.loss ≤ u.loss)) ∧
    (∀ ts, (runInfo ⟨[], none⟩ ts).best = none → ∀ u ∈ ts, (987654321 : ℚ) ≤ u.loss) ∧
    (([[⟨1, 1/2⟩], [⟨1, 1/2⟩, ⟨2, 2/5⟩], [⟨1, 1/2⟩, ⟨2, 2/5⟩, ⟨3, 3/5⟩],
      [⟨1, 1/2⟩, ⟨2, 2/5⟩, ⟨3, 3/5⟩, ⟨4, 3/10⟩]].map
        (fun ts => bestLossOf (runInfo ⟨[], none⟩ ts).best)) = [1/2, 2/5, 2/5, 3/10]) := by
  refine ⟨optStepInfo_trials, optStepInfo_best_of_lt, optStepInfo_best_of_not_lt,
    bestLossOf_optStepInfo, ?_, ?_, ?_, ?_⟩
  · intro info t
    rw [bestLossOf_optStepInfo]
    exact min_le_left _ _
  · intro ts b hbest
    obtain ⟨-, hinv⟩ := ledgerInv_of_run ts
    rcases hinv with ⟨hnone, -⟩ | ⟨b2, pre, post, hbest2, hsplit, hpre, hpost, -⟩
    · rw [hbest] at hnone
      exact absurd hnone (by simp)
    · rw [hbest] at hbest2
      obtain rfl : b2 = b := by injection hbest2 with h; exact h.symm
      exact ⟨pre, post, hsplit, hpre, hpost⟩
  · intro ts hnone u hu
    obtain ⟨-, hinv⟩ := ledgerInv_of_run ts
    rcases hinv with ⟨-, hall⟩ | ⟨b2, pre, post, hbest2, -, -, -, -⟩
    · exact hall u hu
    · rw [hnone] at hbest2
      exact absurd hbest2 (by simp)
  · norm_num [runInfo, optStepInfo, bestLossOf]

/-- Witness for `C1_best_tracking`: instantiates the hypothesis-bearing
conjuncts at concrete ledgers and trials. -/
theorem C1_best_tracking_witness :
    ((optStepInfo ⟨[], none⟩ ⟨1, 1/2⟩).best = some ⟨1, 1/2⟩) ∧
    ((optStepInfo ⟨[⟨1, 1/2⟩], some ⟨1, 1/2⟩⟩ ⟨2, 3/5⟩).best = some ⟨1, 1/2⟩) ∧
    (∃ pre post, ([⟨1, 1/2⟩, ⟨2, 2/5⟩, ⟨3, 3/5⟩, ⟨4, 3/10⟩] : List Trial) =
        pre ++ (⟨4, 3/10⟩ : Trial) :: post ∧
      (∀ u ∈ pre, (3/10 : ℚ) < u.loss) ∧ (∀ u ∈ post, (3/10 : ℚ) ≤ u.loss)) ∧
    (∀ u ∈ ([⟨5, 987654321⟩] : List Trial), (987654321 : ℚ) ≤ u.loss) := by
  refine ⟨?_, ?_, ?_, ?_⟩
  · exact C1_best_tracking.2.1 ⟨[], none⟩ ⟨1, 1/2⟩ (by norm_num [bestLossOf])
  · exact C1_best_tracking.2.2.1 ⟨[⟨1, 1/2⟩], some ⟨1, 1/2⟩⟩ ⟨2, 3/5⟩
      (by norm_num [bestLossOf])
  · exact C1_best_tracking.2.2.2.2.2.1 [⟨1, 1/2⟩, ⟨2, 2/5⟩, ⟨3, 3/5⟩, ⟨4, 3/10⟩] ⟨4, 3/10⟩
      (by norm_num [runInfo, optStepInfo, bestLossOf])
  · exact C1_best_tracking.2.2.2.2.2.2.1 [⟨5, 987654321⟩]
      (by norm_num [runInfo, optStepInfo, bestLossOf])

/-! ### Deployment and budget lemmas -/

lemma deployAllowed_iff (cfg : OptConfig) (isFirst : Bool) (iters : ℕ) :
    deployAllowed cfg isFirst iters = true ↔
      cfg.deployment = true ∧
        (isFirst = true ∨ cfg.min_trials = 0 ∨ iters ≤ cfg.min_trials) := by
  simp [deployAllowed, Bool.and_eq_true, Bool.or_eq_true, decide_eq_true_iff, beq_iff_eq,
    or_assoc]

lemma optimizeStep_ok_of_path (cfg : OptConfig) (st : OptState) (t : Trial) (p : String)
    (hp : cfg.model_path = some p) :
    ∃ d, optimizeStep cfg st t =
      Except.ok (⟨optStepInfo st.info t, st.iters + 1, st.budget - 1⟩, d) := by
  unfold optimizeStep
  split_ifs with h1 h2 h3
  · rw [hp] at h3
    simp at h3
  · exact ⟨true, rfl⟩
  · exact ⟨false, rfl⟩
  · exact ⟨false, rfl⟩

lemma runOpt_exhausts (cfg : OptConfig) (stream : ℕ → Trial) (p : String)
    (hp : cfg.model_path = some p) :
    ∀ fuel : ℕ, ∀ st : OptState, 0 ≤ st.budget → st.budget ≤ (fuel : ℤ) →
      ∃ st2, runOpt cfg stream fuel st = Except.ok st2 ∧
        st2.iters = st.iters + st.budget.toNat ∧ st2.budget = 0 := by
  intro fuel
  induction fuel with
  | zero =>
    intro st h0 hf
    have hz : st.budget = 0 := le_antisymm (by exact_mod_cast hf) h0
    exact ⟨st, rfl, by simp [hz], hz⟩
  | succ k ih =>
    intro st h0 hf
    by_cases hz : st.budget = 0
    · exact ⟨st, by simp [runOpt, hz], by simp [hz], hz⟩
    · obtain ⟨d, hd⟩ := optimizeStep_ok_of_path cfg st (stream st.iters) p hp
      obtain ⟨st2, hrun, hit, hb⟩ :=
        ih ⟨optStepInfo st.info (stream st.iters), st.iters + 1, st.budget - 1⟩
          (by simp; omega) (by simp; push_cast at hf ⊢; omega)
      refine ⟨st2, ?_, ?_, hb⟩
      · simp only [runOpt, hz, if_false, hd]
        exact hrun
      · rw [hit]
        simp only
        omega

lemma runOpt_unbounded (cfg : OptConfig) (stream : ℕ → Trial) (p : String)
    (hp : cfg.model_path = some p) :
    ∀ fuel : ℕ, ∀ st : OptState, st.budget < 0 →
      ∃ st2, runOpt cfg stream fuel st = Except.ok st2 ∧
        st2.iters = st.iters + fuel ∧ st2.budget = st.budget - fuel := by
  intro fuel
  induction fuel with
  | zero =>
    intro st h
    exact ⟨st, rfl, by simp, by simp⟩
  | succ k ih =>
    intro st h
    have hz : ¬ st.budget = 0 := by omega
    obtain ⟨d, hd⟩ := optimizeStep_ok_of_path cfg st (stream st.iters) p hp
    obtain ⟨st2, hrun, hit, hb⟩ :=
      ih ⟨optStepInfo st.info (stream st.iters), st.iters + 1, st.budget - 1⟩
        (by simp; omega)
    refine ⟨st2, ?_, ?_, ?_⟩
    · simp only [runOpt, hz, if_false, hd]
      exact hrun
    · rw [hit]
      simp only
      omega
    · rw [hb]
      simp only
      push_cast
      ring

lemma optimizeStep_deploy_char (cfg : OptConfig) (st : OptState) (t : Trial) (p : String)
    (hp : cfg.model_path = some p) :
    optimizeStep cfg st t =
      Except.ok (⟨optStepInfo st.info t, st.iters + 1, st.budget - 1⟩,
        decide (t.loss < bestLossOf st.info.best) &&
          deployAllowed cfg st.info.best.isNone (st.iters + 1)) := by
  unfold optimizeStep
  by_cases h1 : t.loss < bestLossOf st.info.best
  · rw [if_pos h1]
    by_cases h2 : deployAllowed cfg st.info.best.isNone (st.iters + 1) = true
    · rw [if_pos h2, if_neg (by simp [hp]), h2]
      simp [h1]
    · rw [if_neg h2]
      have h2f : deployAllowed cfg st.info.best.isNone (st.iters + 1) = false :=
        Bool.eq_false_iff.mpr h2
      rw [h2f]
      simp [h1]
  · rw [if_neg h1]
    simp [h1]

/-- C2: with a configured model path, a trial deploys the model exactly when
it improves on the current best AND deployment is enabled AND (no best
existed before this trial, or no minimum-trial gate is configured
(`min_trials = 0`), or the 1-based index of this trial is within the
`min_trials` threshold); a non-improving trial never deploys; and in the
concrete `min_trials = 2` run over losses `[0.5, 0.4, 0.6, 0.3]` the
per-trial deployment flags are `[true, true, false, false]` (improvements on
trials 1 and 2 deploy, trial 3 does not improve, the improvement on trial 4
is suppressed by the gate). -/
theorem C2_deployment_exactly_on_gated_improvement :
    (∀ (cfg : OptConfig) (st : OptState) (t : Trial) (p : String),
      cfg.model_path = some p →
      ∀ r, optimizeStep cfg st t = Except.ok r →
        (r.2 = true ↔ t.loss < bestLossOf st.info.best ∧ cfg.deployment = true ∧
          (st.info.best = none ∨ cfg.min_trials = 0 ∨ st.iters + 1 ≤ cfg.min_trials))) ∧
    (∀ (cfg : OptConfig) (st : OptState) (t : Trial),
      ¬ t.loss < bestLossOf st.info.best →
      optimizeStep cfg st t =
        Except.ok (⟨optStepInfo st.info t, st.iters + 1, st.budget - 1⟩, false)) ∧
    (Except.map Prod.snd (runOptFlags ⟨true, 2, some "model_path"⟩ ⟨⟨[], none⟩, 0, 10⟩
        [⟨1, 1/2⟩, ⟨2, 2/5⟩, ⟨3, 3/5⟩, ⟨4, 3/10⟩]) =
      Except.ok [true, true, false, false]) := by
  refine ⟨?_, ?_, ?_⟩
  · intro cfg st t p hp r hr
    rw [optimizeStep_deploy_char cfg st t p hp] at hr
    obtain rfl :
        r = (⟨optStepInfo st.info t, st.iters + 1, st.budget - 1⟩,
          decide (t.loss < bestLossOf st.info.best) &&
            deployAllowed cfg st.info.best.isNone (st.iters + 1)) := by
      injection hr with h
      exact h.symm
    simp only [Bool.and_eq_true, decide_eq_true_iff, deployAllowed_iff,
      Option.isNone_iff_eq_none]
  · intro cfg st t himp
    simp [optimizeStep, himp]
  · norm_num [runOptFlags, optimizeStep, optStepInfo, bestLossOf, deployAllowed, Except.map]

/-- Witness for `C2_deployment_exactly_on_gated_improvement`: instantiates
its hypothesis-bearing conjuncts on a concrete improving first trial
(deploys) and a concrete non-improving trial (does not deploy). -/
theorem C2_deployment_witness :
    ((true ↔ (1/2 : ℚ) < bestLossOf none ∧ true = true ∧
      ((none : Option Trial) = none ∨ (2 : ℕ) = 0 ∨ 0 + 1 ≤ 2))) ∧
    (optimizeStep ⟨true, 2, some "model_path"⟩ ⟨⟨[⟨1, 1/2⟩], some ⟨1, 1/2⟩⟩, 1, 9⟩ ⟨2, 3/5⟩ =
      Except.ok (⟨optStepInfo ⟨[⟨1, 1/2⟩], some ⟨1, 1/2⟩⟩ ⟨2, 3/5⟩, 2, 8⟩, false)) := by
  constructor
  · have hstep : optimizeStep ⟨true, 2, some "model_path"⟩ ⟨⟨[], none⟩, 0, 10⟩ ⟨1, 1/2⟩ =
        Except.ok (⟨optStepInfo ⟨[], none⟩ ⟨1, 1/2⟩, 1, 9⟩, true) := by
      norm_num [optimizeStep, bestLossOf, deployAllowed]
    have h := C2_deployment_exactly_on_gated_improvement.1
      ⟨true, 2, some "model_path"⟩ ⟨⟨[], none⟩, 0, 10⟩ ⟨1, 1/2⟩ "model_path" rfl
      (⟨optStepInfo ⟨[], none⟩ ⟨1, 1/2⟩, 1, 9⟩, true) hstep
    simpa using h
  · have hnoimp : ¬ (3/5 : ℚ) < bestLossOf (some (⟨1, 1/2⟩ : Trial)) := by
      norm_num [bestLossOf]
    have h := C2_deployment_exactly_on_gated_improvement.2.1
      ⟨true, 2, some "model_path"⟩ ⟨⟨[⟨1, 1/2⟩], some ⟨1, 1/2⟩⟩, 1, 9⟩ ⟨2, 3/5⟩ hnoimp
    simpa using h

/-- C6: with a configured model path (so no step aborts), a budget of
`max_trials = n ≥ 1` makes the main loop run exactly `n` ask-then-run trial
iterations — however much fuel beyond `n` is available, the final state
counts `iters = n` and stops with the decremented budget at zero — while a
budget of `-1` never terminates by budget: every available step runs another
trial (`iters = fuel`) and the budget only keeps moving away from zero
(`-1 - fuel`). -/
theorem C6_trial_budget (cfg : OptConfig) (stream : ℕ → Trial) (p : String)
    (info0 : OptInfo) (hp : cfg.model_path = some p) :
    (∀ n fuel : ℕ, 1 ≤ n → n ≤ fuel →
      ∃ st2, runOpt cfg stream fuel ⟨info0, 0, (n : ℤ)⟩ = Except.ok st2 ∧
        st2.iters = n ∧ st2.budget = 0) ∧
    (∀ fuel : ℕ,
      ∃ st2, runOpt cfg stream fuel ⟨info0, 0, (-1 : ℤ)⟩ = Except.ok st2 ∧
        st2.iters = fuel ∧ st2.budget = -1 - (fuel : ℤ)) := by
  constructor
  · intro n fuel h1 hnf
    obtain ⟨st2, hrun, hit, hb⟩ :=
      runOpt_exhausts cfg stream p hp fuel ⟨info0, 0, (n : ℤ)⟩
        (by simp) (by simp; exact_mod_cast hnf)
    exact ⟨st2, hrun, by simpa using hit, hb⟩
  · intro fuel
    obtain ⟨st2, hrun, hit, hb⟩ :=
      runOpt_unbounded cfg stream p hp fuel ⟨info0, 0, (-1 : ℤ)⟩ (by simp)
    exact ⟨st2, hrun, by simpa using hit, by simpa using hb⟩

/-- Witness for `C6_trial_budget`: a concrete budget-3 run over a constant
trial stream performs exactly 3 trials with 5 units of fuel, and the
unbounded run consumes all 5 units. -/
theorem C6_trial_budget_witness :
    (∃ st2, runOpt ⟨false, 0, some "m"⟩ (fun k => ⟨k, 1⟩) 5 ⟨⟨[], none⟩, 0, (3 : ℤ)⟩ =
      Except.ok st2 ∧ st2.iters = 3 ∧ st2.budget = 0) ∧
    (∃ st2, runOpt ⟨false, 0, some "m"⟩ (fun k => ⟨k, 1⟩) 5 ⟨⟨[], none⟩, 0, (-1 : ℤ)⟩ =
      Except.ok st2 ∧ st2.iters = 5 ∧ st2.budget = -1 - (5 : ℤ)) := by
  constructor
  · exact (C6_trial_budget ⟨false, 0, some "m"⟩ (fun k => ⟨k, 1⟩) "m" ⟨[], none⟩ rfl).1 3 5
      (by norm_num) (by norm_num)
  · exact (C6_trial_budget ⟨false, 0, some "m"⟩ (fun k => ⟨k, 1⟩) "m" ⟨[], none⟩ rfl).2 5

/-- C7: when a trial improves on the current best and the deployment policy
permits deployment (deployment enabled, and first best or no gate or within
the `min_trials` threshold) but no model path is configured, the step raises
`RuntimeError('Failed to dump model: model path is not defined')`, and the
surrounding loop propagates that failure instead of silently skipping the
deployment. -/
theorem C7_runtime_error_without_model_path (cfg : OptConfig) (st : OptState) (t : Trial)
    (himp : t.loss < bestLossOf st.info.best)
    (hdep : cfg.deployment = true)
    (hgate : st.info.best = none ∨ cfg.min_trials = 0 ∨ st.iters + 1 ≤ cfg.min_trials)
    (hpath : cfg.model_path = none) :
    optimizeStep cfg st t =
      Except.error "Failed to dump model: model path is not defined" ∧
    ∀ (stream : ℕ → Trial) (fuel : ℕ), st.budget ≠ 0 → stream st.iters = t →
      runOpt cfg stream (fuel + 1) st =
        Except.error "Failed to dump model: model path is not defined" := by
  have hda : deployAllowed cfg st.info.best.isNone (st.iters + 1) = true := by
    rw [deployAllowed_iff]
    refine ⟨hdep, ?_⟩
    rcases hgate with hfirst | hrest
    · exact Or.inl (Option.isNone_iff_eq_none.mpr hfirst)
    · exact Or.inr hrest
  have hstep : optimizeStep cfg st t =
      Except.error "Failed to dump model: model path is not defined" := by
    unfold optimizeStep
    rw [if_pos himp, if_pos hda, if_pos (by simp [hpath])]
  refine ⟨hstep, ?_⟩
  intro stream fuel hbud hstream
  simp only [runOpt, hbud, if_false, hstream, hstep]

/-- Witness for `C7_runtime_error_without_model_path`: a concrete improving
first trial with deployment enabled and no model path aborts with the
RuntimeError message. -/
theorem C7_runtime_error_witness :
    optimizeStep ⟨true, 0, none⟩ ⟨⟨[], none⟩, 0, 10⟩ ⟨0, 1/2⟩ =
      Except.error "Failed to dump model: model path is not defined" ∧
    runOpt ⟨true, 0, none⟩ (fun k => ⟨k, 1/2⟩) 4 ⟨⟨[], none⟩, 0, 10⟩ =
      Except.error "Failed to dump model: model path is not defined" := by
  have h := C7_runtime_error_without_model_path ⟨true, 0, none⟩ ⟨⟨[], none⟩, 0, 10⟩ ⟨0, 1/2⟩
    (by norm_num [bestLossOf]) rfl (Or.inr (Or.inl rfl)) rfl
  exact ⟨h.1, h.2 (fun k => ⟨k, 1/2⟩) 3 (by norm_num) rfl⟩

/-! ## Hyperparameter application (`ALS._optimize`, als.py lines 150-161) -/

/-- Observable actions of `ALS._optimize` up to the end of training:
setting one option attribute in memory (`setattr(self.opt, name, value)`),
persisting the option set to the scratch option file (`json.dump`),
reinitializing the run (`self.obj.init` + `self.initialize()`), and running
`self.train()`. -/
inductive OptimizeEvent where
  | setOption (name : String)
  | persistOptions
  | reinitialize
  | runTraining
  deriving DecidableEq, Repr

/-- The parameter-application loop of `_optimize`: for each proposed
`(name, value)` pair in order, `assert name in self.opt` and then set the
attribute; the first unrecognized name aborts with the assertion message
(after the earlier, valid pairs have already been set in memory).  Returns
the emitted events and the error, if any. -/
def applyParams (recognized : String → Bool) :
    List (String × ℚ) → List OptimizeEvent × Option String
  | [] => ([], none)
  | (n, _) :: rest =>
    if recognized n then
      let r := applyParams recognized rest
      (OptimizeEvent.setOption n :: r.1, r.2)
    else
      ([], some ("Unexepcted parameter: " ++ n))

/-- `ALS._optimize` for one trial, up to and including the `train()` call:
apply the proposed parameters (aborting on the first unrecognized name),
then persist the options to the scratch file, reinitialize the run and
train. -/
def alsOptimizeRun (recognized : String → Bool) (params : List (String × ℚ)) :
    List OptimizeEvent × Option String :=
  match applyParams recognized params with
  | (evs, some e) => (evs, some e)
  | (evs, none) =>
    (evs ++ [OptimizeEvent.persistOptions, OptimizeEvent.reinitialize,
      OptimizeEvent.runTraining], none)

lemma applyParams_error_of_bad (recognized : String → Bool) :
    ∀ params : List (String × ℚ), (∃ q ∈ params, recognized q.1 = false) →
      ∃ msg, (applyParams recognized params).2 = some msg := by
  intro params
  induction params with
  | nil => rintro ⟨q, hq, -⟩; exact absurd hq (List.not_mem_nil q)
  | cons hd tl ih =>
    rintro ⟨q, hq, hbad⟩
    by_cases hr : recognized hd.1
    · rcases List.mem_cons.mp hq with rfl | hq2
      · rw [hr] at hbad
        exact absurd hbad (by simp)
      · obtain ⟨msg, hmsg⟩ := ih ⟨q, hq2, hbad⟩
        refine ⟨msg, ?_⟩
        obtain ⟨n, v⟩ := hd
        simpa [applyParams, hr] using hmsg
    · obtain ⟨n, v⟩ := hd
      have hr2 : recognized n = false := Bool.eq_false_iff.mpr hr
      exact ⟨"Unexepcted parameter: " ++ n, by simp [applyParams, hr2]⟩

lemma applyParams_events_are_sets (recognized : String → Bool) :
    ∀ params : List (String × ℚ), ∀ e ∈ (applyParams recognized params).1,
      ∃ n, e = OptimizeEvent.setOption n := by
  intro params
  induction params with
  | nil => intro e he; exact absurd he (List.not_mem_nil e)
  | cons hd tl ih =>
    intro e he
    obtain ⟨n, v⟩ := hd
    by_cases hr : recognized n
    · simp only [applyParams, hr, if_true] at he
      rcases List.mem_cons.mp he with rfl | he2
      · exact ⟨n, rfl⟩
      · exact ih e he2
    · have hr2 : recognized n = false := Bool.eq_false_iff.mpr hr
      simp [applyParams, hr2] at he

/-- C8: if any proposed hyperparameter name is not among the recognized
options, `_optimize` is rejected with the ValidationError (assertion) for
the first such name, and neither the option persistence (`json.dump` to the
scratch option file), nor the run reinitialization, nor training executes
for that trial — every event emitted before the abort is an in-memory
`setOption` for an earlier, recognized name. -/
theorem C8_unrecognized_parameter_rejected (recognized : String → Bool)
    (params : List (String × ℚ)) (hbad : ∃ q ∈ params, recognized q.1 = false) :
    (∃ msg, (alsOptimizeRun recognized params).2 = some msg) ∧
    OptimizeEvent.persistOptions ∉ (alsOptimizeRun recognized params).1 ∧
    OptimizeEvent.reinitialize ∉ (alsOptimizeRun recognized params).1 ∧
    OptimizeEvent.runTraining ∉ (alsOptimizeRun recognized params).1 := by
  obtain ⟨msg, hmsg⟩ := applyParams_error_of_bad recognized params hbad
  have hrun : alsOptimizeRun recognized params =
      ((applyParams recognized params).1, some msg) := by
    rcases hap : applyParams recognized params with ⟨evs, err⟩
    rw [hap] at hmsg
    have herr : err = some msg := hmsg
    unfold alsOptimizeRun
    rw [hap]
    subst herr
    rfl
  refine ⟨⟨msg, by rw [hrun]⟩, ?_, ?_, ?_⟩ <;>
    · rw [hrun]
      intro hmem
      obtain ⟨n, hn⟩ := applyParams_events_are_sets recognized params _ hmem
      exact OptimizeEvent.noConfusion hn

/-- Witness for `C8_unrecognized_parameter_rejected`: a proposal setting the
recognized option `d` and then the unrecognized name `bogus` is rejected,
with no persist/reinitialize/train event. -/
theorem C8_unrecognized_parameter_witness :
    (∃ msg, (alsOptimizeRun (fun n => n == "d") [("d", 10), ("bogus", 1)]).2 = some msg) ∧
    OptimizeEvent.persistOptions ∉
      (alsOptimizeRun (fun n => n == "d") [("d", 10), ("bogus", 1)]).1 ∧
    OptimizeEvent.reinitialize ∉
      (alsOptimizeRun (fun n => n == "d") [("d", 10), ("bogus", 1)]).1 ∧
    OptimizeEvent.runTraining ∉
      (alsOptimizeRun (fun n => n == "d") [("d", 10), ("bogus", 1)]).1 :=
  C8_unrecognized_parameter_rejected (fun n => n == "d") [("d", 10), ("bogus", 1)]
    ⟨("bogus", 1), by simp, by simp⟩

/-! ## The `randint` search-space entry (`Optimizable._get_space`) -/

/-- The `randint` branch of `_get_space` (optimize.py lines 25-26): for a
stored descriptor `(label, low, high)` the resolved space is
`low + hp.randint(label, high - low)`, i.e. the integer draw `u` ranges over
`[0, high - low)` and the sampled value is `low + u`.  The support is the
image of all draws. -/
def randintSpace (descriptor : ℤ × ℤ × ℤ) : Finset ℤ :=
  (Finset.range (descriptor.2.2 - descriptor.2.1).toNat).image
    (fun u : ℕ => descriptor.2.1 + (u : ℤ))

/-- C9: the shifted-integer (`randint`) space with stored triple
`(label, low, high)` samples exactly the integers of `[low, high)` — every
value `low + u` for a draw `u ∈ [0, high - low)` lies in `[low, high)` and
every such integer is realized; in particular descriptor `(0, 2, 5)` yields
exactly the values `{2, 3, 4}`. -/
theorem C9_randint_support (label low high v : ℤ) :
    (v ∈ randintSpace (label, low, high) ↔ low ≤ v ∧ v < high) ∧
    randintSpace (0, 2, 5) = ({2, 3, 4} : Finset ℤ) := by
  constructor
  · simp only [randintSpace, Finset.mem_image, Finset.mem_range]
    constructor
    · rintro ⟨u, hu, rfl⟩
      omega
    · rintro ⟨hl, hh⟩
      exact ⟨(v - low).toNat, by omega, by omega⟩
  · decide

/-! ## Training loop (`ALS.train`, als.py lines 119-148)

The solver kernel, buffered feeder, validation and the base-class policies
(`save_best_only`, `early_stopping`) are external collaborators; they are
modelled as opaque state-passing functions over an abstract run state `σ`.
One `_iterate(buf, group)` call — precompute, then the full fetch/get/
partial-update pass over the feeder — is atomic at this level and returns
the accumulated error, so the strict sequencing of the claims is captured by
the order of emitted trace events. -/

/-- Traversal group of one `_iterate` pass. -/
inductive Group where
  | rowwise
  | colwise
  deriving DecidableEq, Repr

/-- Observable events of one `train()` run, in execution order: a completed
rowwise pass with its returned (discarded) error, a completed colwise pass
with its returned error, the loss computation of the iteration, and a
validation run with its results. -/
inductive TrainEvent where
  | rowPass (i : ℕ) (err : ℚ)
  | colPass (i : ℕ) (err : ℚ)
  | lossComputed (i : ℕ) (loss : ℚ)
  | valRun (i : ℕ) (results : List (String × ℚ))
  deriving DecidableEq, Repr

/-- Environment of one `train()` run over an abstract run state `σ`:

* `iterate s g` — `self._iterate(buf, group)`: one full pass, returning the
  updated state and the accumulated error;
* `numNnz` — `self.data.get_header()['num_nnz']`;
* `sqrtFn` — the float operation `x ** 0.5` (abstract; exact on perfect
  squares, see `ratSqrt`);
* `validationRuns i` — `self.opt.validation and self.opt.evaluation_on_learning
  and self.periodical(self.opt.evaluation_period, i)`;
* `getValidationResults` — `self.get_validation_results()`;
* `saveBestOnly s rmse best i` — `self.save_best_only(rmse, best_loss, i)`,
  returning the new best loss;
* `earlyStopping s rmse` — `self.early_stopping(rmse)`;
* `numIters` — `self.opt.num_iters`. -/
structure TrainEnv (σ : Type) where
  iterate : σ → Group → σ × ℚ
  numNnz : ℚ
  sqrtFn : ℚ → ℚ
  validationRuns : ℕ → Bool
  getValidationResults : σ → σ × List (String × ℚ)
  saveBestOnly : σ → ℚ → ℚ → ℕ → σ × ℚ
  earlyStopping : σ → ℚ → σ × Bool
  numIters : ℕ

/-- Loop-carried state of `train()`: the run state, `best_loss`, the last
computed `rmse` (`none` before any iteration), `self.validation_result`,
and the trace of events emitted so far. -/
structure IterAcc (σ : Type) where
  s : σ
  bestLoss : ℚ
  rmse : Option ℚ
  validationResult : List (String × ℚ)
  trace : List TrainEvent

/-- The rowwise pass of one iteration of the `train()` body:
`self._iterate(buf, group='rowwise')` from the current run state. -/
def rowRes (env : TrainEnv σ) (a : IterAcc σ) : σ × ℚ :=
  env.iterate a.s Group.rowwise

/-- The colwise pass, run on the state left by the rowwise pass:
`err = self._iterate(buf, group='colwise')`. -/
def colRes (env : TrainEnv σ) (a : IterAcc σ) : σ × ℚ :=
  env.iterate (rowRes env a).1 Group.colwise

/-- `rmse = (err / num_nnz) ** 0.5` with `err` the colwise error. -/
def stepRmse (env : TrainEnv σ) (a : IterAcc σ) : ℚ :=
  env.sqrtFn ((colRes env a).2 / env.numNnz)

/-- One iteration of the `for i in range(num_iters)` body (als.py lines
125-143): rowwise pass (error discarded), colwise pass, `rmse = (err /
num_nnz) ** 0.5`, optional validation (updating `self.validation_result`),
`save_best_only`, and the early-stopping check whose outcome is returned as
the `break` flag. -/
def trainStep (env : TrainEnv σ) (i : ℕ) (a : IterAcc σ) : IterAcc σ × Bool :=
  let co := colRes env a
  let rmse := stepRmse env a
  let core := [TrainEvent.rowPass i (rowRes env a).2, TrainEvent.colPass i co.2,
    TrainEvent.lossComputed i rmse]
  if env.validationRuns i then
    let vr := env.getValidationResults co.1
    let sb := env.saveBestOnly vr.1 rmse a.bestLoss i
    let es := env.earlyStopping sb.1 rmse
    (⟨es.1, sb.2, some rmse, vr.2, a.trace ++ (core ++ [TrainEvent.valRun i vr.2])⟩, es.2)
  else
    let sb := env.saveBestOnly co.1 rmse a.bestLoss i
    let es := env.earlyStopping sb.1 rmse
    (⟨es.1, sb.2, some rmse, a.validationResult, a.trace ++ core⟩, es.2)

/-- The iteration loop: run up to `fuel` more iterations starting at
iteration index `i`, breaking early when the early-stopping flag fires. -/
def trainLoop (env : TrainEnv σ) : ℕ → ℕ → IterAcc σ → IterAcc σ
  | 0, _, a => a
  | Nat.succ k, i, a =>
    let r := trainStep env i a
    if r.2 then r.1 else trainLoop env k (i + 1) r.1

/-- Result of `train()`: the final run state, the returned metrics record —
`train_loss` (`None` when no iteration ran) and the `val_`-prefixed copy of
the last validation results — and the event trace. -/
structure TrainResult (σ : Type) where
  s : σ
  train_loss : Option ℚ
  valEntries : List (String × ℚ)
  trace : List TrainEvent

/-- `ret.update({'val_%s' % k: v for k, v in self.validation_result.items()})`:
the validation results under `val_`-prefixed keys. -/
def valTagged (l : List (String × ℚ)) : List (String × ℚ) :=
  l.map (fun kv => ("val_" ++ kv.1, kv.2))

/-- `ALS.train` (als.py lines 119-148): initialize `best_loss` to the
sentinel `987654321.0`, `rmse` to `None` and `validation_result` to `{}`,
run the iteration loop, and return `{'train_loss': rmse}` merged with the
`val_`-prefixed last validation results. -/
def train (env : TrainEnv σ) (s0 : σ) : TrainResult σ :=
  let a := trainLoop env env.numIters 0 ⟨s0, 987654321, none, [], []⟩
  ⟨a.s, a.rmse, valTagged a.validationResult, a.trace⟩

/-- Exact rational square root: `ratSqrt q` is the square root of `q` when
`q` is a ratio of perfect squares (e.g. `ratSqrt 4 = 2`), matching float
`** 0.5` on exactly representable results; used as a concrete instance for
the abstract `sqrtFn`. -/
def ratSqrt (q : ℚ) : ℚ :=
  (Nat.sqrt q.num.toNat : ℚ) / (Nat.sqrt q.den : ℚ)

/-! ### Trace observers -/

/-- The loss carried by a `lossComputed` event. -/
def lossEventVal : TrainEvent → Option ℚ
  | TrainEvent.lossComputed _ l => some l
  | _ => none

/-- The loss of the last `lossComputed` event of a trace, if any. -/
def lastLoss : List TrainEvent → Option ℚ
  | [] => none
  | e :: rest =>
    match lastLoss rest with
    | some x => some x
    | none => lossEventVal e

/-- The results carried by a `valRun` event. -/
def valEventRes : TrainEvent → Option (List (String × ℚ))
  | TrainEvent.valRun _ r => some r
  | _ => none

/-- The results of the last `valRun` event of a trace, if any. -/
def lastVal : List TrainEvent → Option (List (String × ℚ))
  | [] => none
  | e :: rest =>
    match lastVal rest with
    | some x => some x
    | none => valEventRes e

lemma lastLoss_append (xs ys : List TrainEvent) :
    lastLoss (xs ++ ys) =
      match lastLoss ys with
      | some x => some x
      | none => lastLoss xs := by
  induction xs with
  | nil =>
    cases hys : lastLoss ys <;> simp [lastLoss, hys]
  | cons e xs ih =>
    cases hys : lastLoss ys <;> cases hxs : lastLoss xs <;>
      simp [lastLoss, ih, hys, hxs]

lemma lastVal_append (xs ys : List TrainEvent) :
    lastVal (xs ++ ys) =
      match lastVal ys with
      | some x => some x
      | none => lastVal xs := by
  induction xs with
  | nil =>
    cases hys : lastVal ys <;> simp [lastVal, hys]
  | cons e xs ih =>
    cases hys : lastVal ys <;> cases hxs : lastVal xs <;>
      simp [lastVal, ih, hys, hxs]

/-! ### Per-iteration block structure -/

/-- Shape of the events one executed iteration `i` appends to the trace: a
completed rowwise pass, then a completed colwise pass, then the loss
computation whose value is `sqrtFn` of the colwise error over `num_nnz`
(the rowwise error appears in no further event), optionally followed by a
validation run. -/
def IsIterBlock (env : TrainEnv σ) (i : ℕ) (blk : List TrainEvent) : Prop :=
  ∃ r c vres,
    blk = [TrainEvent.rowPass i r, TrainEvent.colPass i c,
      TrainEvent.lossComputed i (env.sqrtFn (c / env.numNnz))] ∨
    blk = [TrainEvent.rowPass i r, TrainEvent.colPass i c,
      TrainEvent.lossComputed i (env.sqrtFn (c / env.numNnz)),
      TrainEvent.valRun i vres]

/-- Everything one `trainStep` does to the observable accumulator: it
appends one well-shaped iteration block to the trace, whose last loss event
carries this iteration's rmse, sets `rmse` to it, and either leaves
`validation_result` unchanged (block without a validation event) or sets it
to the block's validation results. -/
lemma trainStep_spec (env : TrainEnv σ) (i : ℕ) (a : IterAcc σ) :
    ∃ blk, (trainStep env i a).1.trace = a.trace ++ blk ∧
      IsIterBlock env i blk ∧
      lastLoss blk = some (stepRmse env a) ∧
      (trainStep env i a).1.rmse = some (stepRmse env a) ∧
      ((lastVal blk = none ∧
        (trainStep env i a).1.validationResult = a.validationResult) ∨
       (∃ vres, lastVal blk = some vres ∧
        (trainStep env i a).1.validationResult = vres)) := by
  by_cases hv : env.validationRuns i
  · refine ⟨[TrainEvent.rowPass i (rowRes env a).2, TrainEvent.colPass i (colRes env a).2,
      TrainEvent.lossComputed i (stepRmse env a),
      TrainEvent.valRun i (env.getValidationResults (colRes env a).1).2],
      ?_, ⟨(rowRes env a).2, (colRes env a).2, _, Or.inr rfl⟩, rfl, ?_, ?_⟩
    · simp [trainStep, hv]
    · simp [trainStep, hv]
    · exact Or.inr ⟨(env.getValidationResults (colRes env a).1).2, rfl,
        by simp [trainStep, hv]⟩
  · refine ⟨[TrainEvent.rowPass i (rowRes env a).2, TrainEvent.colPass i (colRes env a).2,
      TrainEvent.lossComputed i (stepRmse env a)],
      ?_, ⟨(rowRes env a).2, (colRes env a).2, [], Or.inl rfl⟩, rfl, ?_, ?_⟩
    · simp [trainStep, hv]
    · simp [trainStep, hv]
    · exact Or.inl ⟨rfl, by simp [trainStep, hv]⟩

/-- The whole loop appends one well-shaped block per executed iteration,
with consecutive iteration indices starting at `i`. -/
lemma trainLoop_shape (env : TrainEnv σ) :
    ∀ fuel i (a : IterAcc σ), ∃ blks : List (List TrainEvent),
      (trainLoop env fuel i a).trace = a.trace ++ blks.flatten ∧
      ∀ j, ∀ h : j < blks.length, IsIterBlock env (i + j) (blks.get ⟨j, h⟩) := by
  intro fuel
  induction fuel with
  | zero =>
    intro i a
    exact ⟨[], by simp [trainLoop], by intro j h; exact absurd h (by simp)⟩
  | succ k ih =>
    intro i a
    obtain ⟨blk, htr, hblk, -, -, -⟩ := trainStep_spec env i a
    by_cases hstop : (trainStep env i a).2 = true
    · refine ⟨[blk], ?_, ?_⟩
      · simp only [trainLoop, hstop, if_true, List.flatten_cons]
        rw [htr]
        simp
      · intro j h
        have hj : j = 0 := by simpa using h
        subst hj
        simpa using hblk
    · obtain ⟨blks, htr2, hblks⟩ := ih (i + 1) (trainStep env i a).1
      refine ⟨blk :: blks, ?_, ?_⟩
      · have hsf : (trainStep env i a).2 = false := Bool.eq_false_iff.mpr hstop
        simp only [trainLoop, hsf, Bool.false_eq_true, if_false, List.flatten_cons]
        rw [htr2, htr, List.append_assoc]
      · intro j h
        cases j with
        | zero => simpa using hblk
        | succ j2 =>
          have h2 : j2 < blks.length := by simpa using h
          have hidx := hblks j2 h2
          have harith : (i + 1) + j2 = i + (j2 + 1) := by omega
          rw [harith] at hidx
          exact hidx

/-- The loop preserves the invariant that `rmse` holds the last computed
loss of the trace. -/
lemma trainLoop_lastLoss (env : TrainEnv σ) :
    ∀ fuel i (a : IterAcc σ), a.rmse = lastLoss a.trace →
      (trainLoop env fuel i a).rmse = lastLoss (trainLoop env fuel i a).trace := by
  intro fuel
  induction fuel with
  | zero =>
    intro i a h
    simpa [trainLoop] using h
  | succ k ih =>
    intro i a h
    obtain ⟨blk, htr, -, hll, hrm, -⟩ := trainStep_spec env i a
    have hstep : (trainStep env i a).1.rmse = lastLoss (trainStep env i a).1.trace := by
      rw [hrm, htr, lastLoss_append, hll]
    by_cases hstop : (trainStep env i a).2 = true
    · simpa [trainLoop, hstop] using hstep
    · have hsf : (trainStep env i a).2 = false := Bool.eq_false_iff.mpr hstop
      have hrec := ih (i + 1) (trainStep env i a).1 hstep
      simpa [trainLoop, hsf] using hrec

/-- The loop preserves the invariant that `validation_result` holds the
results of the last validation run of the trace (`[]` when none ran):
validation results are carried forward across iterations that skip
validation. -/
lemma trainLoop_lastVal (env : TrainEnv σ) :
    ∀ fuel i (a : IterAcc σ), a.validationResult = (lastVal a.trace).getD [] →
      (trainLoop env fuel i a).validationResult =
        (lastVal (trainLoop env fuel i a).trace).getD [] := by
  intro fuel
  induction fuel with
  | zero =>
    intro i a h
    simpa [trainLoop] using h
  | succ k ih =>
    intro i a h
    obtain ⟨blk, htr, -, -, -, hval⟩ := trainStep_spec env i a
    have hstep : (trainStep env i a).1.validationResult =
        (lastVal (trainStep env i a).1.trace).getD [] := by
      rcases hval with ⟨hnone, hkeep⟩ | ⟨vres, hsome, hset⟩
      · rw [hkeep, htr, lastVal_append, hnone, h]
      · rw [hset, htr, lastVal_append, hsome]
        rfl
    by_cases hstop : (trainStep env i a).2 = true
    · simpa [trainLoop, hstop] using hstep
    · have hsf : (trainStep env i a).2 = false := Bool.eq_false_iff.mpr hstop
      have hrec := ih (i + 1) (trainStep env i a).1 hstep
      simpa [trainLoop, hsf] using hrec

/-- After at least one iteration the loop's `rmse` is set. -/
lemma trainLoop_rmse_isSome (env : TrainEnv σ) :
    ∀ fuel i (a : IterAcc σ), a.rmse.isSome = true →
      (trainLoop env fuel i a).rmse.isSome = true := by
  intro fuel
  induction fuel with
  | zero =>
    intro i a h
    simpa [trainLoop] using h
  | succ k ih =>
    intro i a h
    obtain ⟨blk, -, -, -, hrm, -⟩ := trainStep_spec env i a
    have hstep : (trainStep env i a).1.rmse.isSome = true := by
      rw [hrm]
      rfl
    by_cases hstop : (trainStep env i a).2 = true
    · simpa [trainLoop, hstop] using hstep
    · have hsf : (trainStep env i a).2 = false := Bool.eq_false_iff.mpr hstop
      have hrec := ih (i + 1) (trainStep env i a).1 hstep
      simpa [trainLoop, hsf] using hrec

lemma trainLoop_pos_rmse_isSome (env : TrainEnv σ) (fuel i : ℕ) (a : IterAcc σ)
    (h : 1 ≤ fuel) : (trainLoop env fuel i a).rmse.isSome = true := by
  cases fuel with
  | zero => exact absurd h (by simp)
  | succ k =>
    obtain ⟨blk, -, -, -, hrm, -⟩ := trainStep_spec env i a
    have hstep : (trainStep env i a).1.rmse.isSome = true := by
      rw [hrm]
      rfl
    by_cases hstop : (trainStep env i a).2 = true
    · simpa [trainLoop, hstop] using hstep
    · have hsf : (trainStep env i a).2 = false := Bool.eq_false_iff.mpr hstop
      have hrec := trainLoop_rmse_isSome env k (i + 1) (trainStep env i a).1 hstep
      simpa [trainLoop, hsf] using hrec

/-- Inside a well-shaped iteration block, a `colPass` event carries the
block's iteration index. -/
lemma block_col_index (env : TrainEnv σ) (j : ℕ) (bl : List TrainEvent)
    (hb : IsIterBlock env j bl) (i : ℕ) (c : ℚ)
    (hc : TrainEvent.colPass i c ∈ bl) : i = j := by
  obtain ⟨r, c2, vres, hbl | hbl⟩ := hb <;> subst hbl <;> simp at hc <;> exact hc.1

/-- Inside a well-shaped iteration block, a `lossComputed` event carries the
block's iteration index. -/
lemma block_loss_index (env : TrainEnv σ) (j : ℕ) (bl : List TrainEvent)
    (hb : IsIterBlock env j bl) (i : ℕ) (L : ℚ)
    (hl : TrainEvent.lossComputed i L ∈ bl) : i = j := by
  obtain ⟨r, c2, vres, hbl | hbl⟩ := hb <;> subst hbl <;> simp at hl <;> exact hl.1

/-- Inside a well-shaped iteration block, the computed loss is `sqrtFn` of
the block's colwise error over `num_nnz`. -/
lemma block_col_loss (env : TrainEnv σ) (j : ℕ) (bl : List TrainEvent)
    (hb : IsIterBlock env j bl) (i : ℕ) (c L : ℚ)
    (hc : TrainEvent.colPass i c ∈ bl) (hl : TrainEvent.lossComputed i L ∈ bl) :
    L = env.sqrtFn (c / env.numNnz) := by
  obtain ⟨r, c2, vres, hbl | hbl⟩ := hb <;> subst hbl <;> simp at hc hl <;>
    · obtain ⟨-, rfl⟩ := hc
      exact hl.2

/-! ### Discarding the rowwise error -/

/-- `env₂` is `env₁` with possibly different rowwise-pass *return errors*:
the two environments have identical state effects and identical colwise
errors (and identical remaining fields), but the error value the rowwise
pass returns may differ arbitrarily. -/
def RowErrVariant (env₁ env₂ : TrainEnv σ) : Prop :=
  (∀ s g, (env₂.iterate s g).1 = (env₁.iterate s g).1) ∧
  (∀ s, (env₂.iterate s Group.colwise).2 = (env₁.iterate s Group.colwise).2) ∧
  env₂.numNnz = env₁.numNnz ∧
  env₂.sqrtFn = env₁.sqrtFn ∧
  env₂.validationRuns = env₁.validationRuns ∧
  env₂.getValidationResults = env₁.getValidationResults ∧
  env₂.saveBestOnly = env₁.saveBestOnly ∧
  env₂.earlyStopping = env₁.earlyStopping ∧
  env₂.numIters = env₁.numIters

/-- Equality of accumulators on everything except the trace. -/
def AccSim (a b : IterAcc σ) : Prop :=
  a.s = b.s ∧ a.bestLoss = b.bestLoss ∧ a.rmse = b.rmse ∧
    a.validationResult = b.validationResult

lemma trainStep_rowErrVariant (env₁ env₂ : TrainEnv σ) (hv : RowErrVariant env₁ env₂)
    (i : ℕ) (a b : IterAcc σ) (hab : AccSim a b) :
    AccSim (trainStep env₁ i a).1 (trainStep env₂ i b).1 ∧
      (trainStep env₁ i a).2 = (trainStep env₂ i b).2 := by
  obtain ⟨hit, hcol, hnnz, hsqrt, hvr, hgvr, hsbo, hes, -⟩ := hv
  obtain ⟨hs, hbl, hrm, hval⟩ := hab
  have hrow1 : (rowRes env₂ b).1 = (rowRes env₁ a).1 := by
    rw [rowRes, rowRes, ← hs, hit]
  have hcol1 : (colRes env₂ b).1 = (colRes env₁ a).1 := by
    rw [colRes, colRes, hrow1, hit]
  have hcol2 : (colRes env₂ b).2 = (colRes env₁ a).2 := by
    rw [colRes, colRes, hrow1, hcol]
  have hrmse : stepRmse env₂ b = stepRmse env₁ a := by
    rw [stepRmse, stepRmse, hcol2, hnnz, hsqrt]
  by_cases hvi : env₁.validationRuns i
  · have hvi2 : env₂.validationRuns i := by rw [hvr]; exact hvi
    simp only [trainStep, hvi, hvi2, if_true]
    rw [hgvr, hsbo, hes, hcol1, hrmse, hbl]
    exact ⟨⟨rfl, rfl, rfl, rfl⟩, rfl⟩
  · have hvi2 : ¬ env₂.validationRuns i := by rw [hvr]; exact hvi
    simp only [trainStep, hvi, hvi2, if_false]
    rw [hsbo, hes, hcol1, hrmse, hbl, hval]
    exact ⟨⟨rfl, rfl, rfl, rfl⟩, rfl⟩

lemma trainLoop_rowErrVariant (env₁ env₂ : TrainEnv σ) (hv : RowErrVariant env₁ env₂) :
    ∀ fuel i (a b : IterAcc σ), AccSim a b →
      AccSim (trainLoop env₁ fuel i a) (trainLoop env₂ fuel i b) := by
  intro fuel
  induction fuel with
  | zero =>
    intro i a b hab
    simpa [trainLoop] using hab
  | succ k ih =>
    intro i a b hab
    obtain ⟨hstep, hflag⟩ := trainStep_rowErrVariant env₁ env₂ hv i a b hab
    by_cases hstop : (trainStep env₁ i a).2 = true
    · have hstop2 : (trainStep env₂ i b).2 = true := by rw [← hflag]; exact hstop
      simpa [trainLoop, hstop, hstop2] using hstep
    · have hsf : (trainStep env₁ i a).2 = false := Bool.eq_false_iff.mpr hstop
      have hsf2 : (trainStep env₂ i b).2 = false := by rw [← hflag]; exact hsf
      have hrec := ih (i + 1) (trainStep env₁ i a).1 (trainStep env₂ i b).1 hstep
      simpa [trainLoop, hsf, hsf2] using hrec

/-- C3: in every `train()` run, the trace decomposes into one block per
executed iteration, in iteration order: the completed rowwise pass comes
first, then the completed colwise pass, then the loss computation — whose
value is `sqrtFn` of the colwise error over `num_nnz`, independent of the
rowwise error — optionally followed by validation; and replacing the
rowwise pass's returned error by anything (keeping state effects) leaves
the final state, train loss and validation entries unchanged: the rowwise
error is discarded. -/
theorem C3_pass_ordering_row_error_discarded :
    (∀ (σ : Type) (env : TrainEnv σ) (s0 : σ),
      ∃ blks : List (List TrainEvent), (train env s0).trace = blks.flatten ∧
        ∀ j, ∀ h : j < blks.length, IsIterBlock env j (blks.get ⟨j, h⟩)) ∧
    (∀ (σ : Type) (env₁ env₂ : TrainEnv σ) (s0 : σ), RowErrVariant env₁ env₂ →
      (train env₂ s0).s = (train env₁ s0).s ∧
      (train env₂ s0).train_loss = (train env₁ s0).train_loss ∧
      (train env₂ s0).valEntries = (train env₁ s0).valEntries) := by
  constructor
  · intro σ env s0
    obtain ⟨blks, htr, hsh⟩ :=
      trainLoop_shape env env.numIters 0 ⟨s0, 987654321, none, [], []⟩
    refine ⟨blks, ?_, ?_⟩
    · simpa [train] using htr
    · intro j h
      simpa using hsh j h
  · intro σ env₁ env₂ s0 hv
    have hni : env₂.numIters = env₁.numIters := hv.2.2.2.2.2.2.2.2
    obtain ⟨hs, hbl, hrm, hval⟩ :=
      trainLoop_rowErrVariant env₁ env₂ hv env₁.numIters 0
        ⟨s0, 987654321, none, [], []⟩ ⟨s0, 987654321, none, [], []⟩ ⟨rfl, rfl, rfl, rfl⟩
    refine ⟨?_, ?_, ?_⟩
    · simp only [train]
      rw [hni]
      exact hs.symm
    · simp only [train]
      rw [hni]
      exact hrm.symm
    · simp only [train]
      rw [hni, hval]

/-- Concrete one-iteration training environment over a unit run state:
rowwise error 7, colwise error 100, `num_nnz = 25`, no validation, no early
stopping, `sqrtFn` instantiated by the exact `ratSqrt`. -/
def envW : TrainEnv Unit :=
  ⟨fun s g => (s, if g = Group.colwise then 100 else 7), 25, ratSqrt,
    fun _ => false, fun s => (s, []), fun s _ b _ => (s, b), fun s _ => (s, false), 1⟩

/-- `envW` with a different rowwise error (99 instead of 7) and everything
else identical. -/
def envW2 : TrainEnv Unit :=
  ⟨fun s g => (s, if g = Group.colwise then 100 else 99), 25, ratSqrt,
    fun _ => false, fun s => (s, []), fun s _ b _ => (s, b), fun s _ => (s, false), 1⟩

/-- Witness for `C3_pass_ordering_row_error_discarded`: the concrete
environments `envW` and `envW2` differ only in the rowwise error, and their
runs agree on state, train loss and validation entries. -/
theorem C3_pass_ordering_witness :
    RowErrVariant envW envW2 ∧
    (train envW2 ()).s = (train envW ()).s ∧
    (train envW2 ()).train_loss = (train envW ()).train_loss ∧
    (train envW2 ()).valEntries = (train envW ()).valEntries := by
  have hv : RowErrVariant envW envW2 :=
    ⟨fun s g => rfl, fun s => rfl, rfl, rfl, rfl, rfl, rfl, rfl, rfl⟩
  exact ⟨hv, C3_pass_ordering_row_error_discarded.2 Unit envW envW2 () hv⟩

/-- C4: a `train()` run of at least one iteration returns a metrics record
whose `train_loss` is the loss of the final executed iteration (the last
loss computation of the trace — in particular it is present), together with
the `val_`-prefixed results of the most recent validation run, carried
forward even when validation did not run on the final iteration; when
validation never ran, the record has no `val_` entries. -/
theorem C4_final_metrics (σ : Type) (env : TrainEnv σ) (s0 : σ)
    (h : 1 ≤ env.numIters) :
    (train env s0).train_loss = lastLoss (train env s0).trace ∧
    (train env s0).train_loss.isSome = true ∧
    (train env s0).valEntries = valTagged ((lastVal (train env s0).trace).getD []) ∧
    (lastVal (train env s0).trace = none → (train env s0).valEntries = []) := by
  have h1 := trainLoop_lastLoss env env.numIters 0 ⟨s0, 987654321, none, [], []⟩ rfl
  have h2 := trainLoop_lastVal env env.numIters 0 ⟨s0, 987654321, none, [], []⟩ rfl
  have h3 := trainLoop_pos_rmse_isSome env env.numIters 0 ⟨s0, 987654321, none, [], []⟩ h
  refine ⟨?_, ?_, ?_, ?_⟩
  · simpa [train] using h1
  · simpa [train] using h3
  · simp only [train]
    rw [h2]
  · intro hnone
    simp only [train] at hnone ⊢
    rw [h2, hnone]
    rfl

/-- Witness for `C4_final_metrics` at the one-iteration environment `envW`
(where validation never runs, so there are no `val_` entries). -/
theorem C4_final_metrics_witness :
    1 ≤ envW.numIters ∧
    (train envW ()).train_loss = lastLoss (train envW ()).trace ∧
    (train envW ()).train_loss.isSome = true ∧
    (train envW ()).valEntries = [] := by
  have h := C4_final_metrics Unit envW () (Nat.le_refl 1)
  exact ⟨Nat.le_refl 1, h.1, h.2.1, h.2.2.2 rfl⟩

/-- C5: every loss event of a `train()` run computes `sqrtFn` of the same
iteration's colwise error divided by `num_nnz` — `rmse = (err / num_nnz)
** 0.5` — and on the claim's numbers the exact square root of
`100 / 25 = 4` is `2`. -/
theorem C5_rmse_formula :
    (∀ (σ : Type) (env : TrainEnv σ) (s0 : σ) (i : ℕ) (c L : ℚ),
      TrainEvent.colPass i c ∈ (train env s0).trace →
      TrainEvent.lossComputed i L ∈ (train env s0).trace →
      L = env.sqrtFn (c / env.numNnz)) ∧
    ratSqrt ((100 : ℚ) / 25) = 2 := by
  constructor
  · intro σ env s0 i c L hc hl
    obtain ⟨blks, htr, hsh⟩ :=
      trainLoop_shape env env.numIters 0 ⟨s0, 987654321, none, [], []⟩
    have htr2 : (train env s0).trace = blks.flatten := by simpa [train] using htr
    rw [htr2] at hc hl
    obtain ⟨bl1, hbl1, hc1⟩ := List.mem_flatten.mp hc
    obtain ⟨bl2, hbl2, hl2⟩ := List.mem_flatten.mp hl
    obtain ⟨n1, hn1⟩ := List.mem_iff_get.mp hbl1
    obtain ⟨n2, hn2⟩ := List.mem_iff_get.mp hbl2
    have hib1 : IsIterBlock env n1.1 bl1 := by
      have h0 := hsh n1.1 n1.2
      rw [Nat.zero_add] at h0
      have hg : blks.get ⟨n1.1, n1.2⟩ = bl1 := by rw [← hn1]
      rw [hg] at h0
      exact h0
    have hib2 : IsIterBlock env n2.1 bl2 := by
      have h0 := hsh n2.1 n2.2
      rw [Nat.zero_add] at h0
      have hg : blks.get ⟨n2.1, n2.2⟩ = bl2 := by rw [← hn2]
      rw [hg] at h0
      exact h0
    have hi1 : i = n1.1 := block_col_index env n1.1 bl1 hib1 i c hc1
    have hi2 : i = n2.1 := block_loss_index env n2.1 bl2 hib2 i L hl2
    have hnn : n1 = n2 := Fin.ext (by omega)
    have hbl12 : bl1 = bl2 := by rw [← hn1, ← hn2, hnn]
    exact block_col_loss env n1.1 bl1 hib1 i c L hc1 (by rw [hbl12]; exact hl2)
  · have h1 : (100 : ℚ) / 25 = 4 := by norm_num
    rw [h1]
    unfold ratSqrt
    have h2 : Nat.sqrt (Int.toNat 4) = 2 := by
      have h3 : Int.toNat 4 = 4 := rfl
      rw [h3]
      symm
      rw [Nat.eq_sqrt]
      norm_num
    norm_num [h2]

/-- Witness for `C5_rmse_formula`: in the concrete `envW` run the colwise
pass of iteration 0 accumulates error 100 over `num_nnz = 25`, and the
computed loss event carries `sqrtFn (100 / 25)`. -/
theorem C5_rmse_formula_witness :
    TrainEvent.colPass 0 100 ∈ (train envW ()).trace ∧
    TrainEvent.lossComputed 0 (ratSqrt ((100 : ℚ) / 25)) ∈ (train envW ()).trace ∧
    ratSqrt ((100 : ℚ) / 25) = envW.sqrtFn ((100 : ℚ) / envW.numNnz) := by
  have htr : (train envW ()).trace = [TrainEvent.rowPass 0 7, TrainEvent.colPass 0 100,
      TrainEvent.lossComputed 0 (ratSqrt ((100 : ℚ) / 25))] := rfl
  refine ⟨by rw [htr]; simp, by rw [htr]; simp, ?_⟩
  exact C5_rmse_formula.1 Unit envW () 0 100 (ratSqrt ((100 : ℚ) / 25))
    (by rw [htr]; simp) (by rw [htr]; simp)

/-- `envW` with `num_iters = 0`. -/
def envW0 : TrainEnv Unit :=
  ⟨fun s g => (s, if g = Group.colwise then 100 else 7), 25, ratSqrt,
    fun _ => false, fun s => (s, []), fun s _ b _ => (s, b), fun s _ => (s, false), 0⟩

/-- C10: with `num_iters = 0` the loop body never runs — no rowwise or
colwise pass, no event at all — and `train()` still returns a metrics
record, whose `train_loss` is `None` and which has no `val_` entries; the
run state is untouched. -/
theorem C10_zero_iterations (σ : Type) (env : TrainEnv σ) (s0 : σ)
    (h : env.numIters = 0) :
    (train env s0).train_loss = none ∧ (train env s0).valEntries = [] ∧
    (train env s0).trace = [] ∧ (train env s0).s = s0 := by
  simp [train, h, trainLoop, valTagged]

/-- Witness for `C10_zero_iterations` at the concrete zero-iteration
environment `envW0`. -/
theorem C10_zero_iterations_witness :
    (train envW0 ()).train_loss = none ∧ (train envW0 ()).valEntries = [] ∧
    (train envW0 ()).trace = [] ∧ (train envW0 ()).s = () :=
  C10_zero_iterations Unit envW0 () rfl

end Buffalo
